import Mathlib

/-!
Shallow embedding of src/eikonal.py (an iterative eikonal-equation solver on
2D/3D instance masks) and proofs about it.

Modelling conventions.
A tensor of shape (B, C, spatial...) is a function from an abstract pixel
type P (the batch, channel and spatial axes folded together) to the value
type; a neighbor stack of shape (B, C, K, spatial...) is a function from the
stack index (a natural number below K = 3 ^ d) and a pixel.  The spatial rank
d, which the Python code recovers from the number of tensor axes, is passed
explicitly.  Boolean tensors multiply as 1 or 0, as in torch.  Exceptions are
modelled by the Except monad; float values by the reals, with torch.clamp
becoming max and torch.sqrt becoming Real.sqrt.
-/

namespace EikonalModel

/-- Modelled from the spec: binary_convolution, the Neighborhood Sampler of
src/morphology.py, which is not part of src/.  The spec states that for a
field of spatial rank d it returns for every pixel the values of the field at
its 3 ^ d - 1 neighbors plus itself, replicating at grid borders, in a fixed
raster order.  This geometry is abstracted into a function nbr assigning to
every stack index k and pixel p the pixel whose value ends up at entry k of
the stack at p; sampling a field F gives the stack fun k p => F (nbr k p).
Concrete grids instantiate nbr with the actual clamped-offset map. -/
def binary_convolution {P : Type} (nbr : ℕ → P → P) (F : P → ℝ) : ℕ → P → ℝ :=
  fun k p => F (nbr k p)

/-- Per-pixel embedding of _apply_update from src/eikonal.py.  The input
stack (N_pairs, B, C, spatial...) is represented at one pixel by the list of
its N_pairs values; d is the spatial rank (ndim - 3 in the source).  The
source sorts along the pair axis, keeps values whose distance to the largest
sorted value is strictly below f (multiplying by the boolean mask), and
returns (1 / d) * (sum_a + sqrt (clamp (sum_a ^ 2 - d * (sum_a2 - f ^ 2), min = 0))). -/
noncomputable def apply_update (d : ℕ) (f : ℝ) (minimum_paired : List ℝ) : ℝ :=
  let sorted := List.insertionSort (· ≤ ·) minimum_paired
  let last := sorted.getLast?.getD 0
  let a := sorted.map (fun v => v * (if v - last < f then 1 else 0))
  let sum_a := a.sum
  let sum_a2 := (a.map (fun v => v ^ 2)).sum
  (1 / (d : ℝ)) * (sum_a + Real.sqrt (max (sum_a ^ 2 - (d : ℝ) * (sum_a2 - f ^ 2)) 0))

/-- Index groups of eikonal_single_step for a 2D stack (ndim = 5). -/
def index_list_2d : List (List ℕ) := [[4], [1, 3, 5, 7], [0, 2, 6, 8]]

/-- Step-length factors for the 2D groups. -/
noncomputable def factors_2d : List ℝ := [0, 1, Real.sqrt 2]

/-- Index groups of eikonal_single_step for a 3D stack (ndim = 6). -/
def index_list_3d : List (List ℕ) :=
  [[13], [4, 10, 12, 14, 16, 22], [1, 3, 5, 7, 9, 11, 15, 17, 19, 21, 23, 25],
   [0, 2, 6, 8, 18, 20, 24, 26]]

/-- Step-length factors for the 3D groups. -/
noncomputable def factors_3d : List ℝ := [0, 1, Real.sqrt 2, Real.sqrt 3]

/-- Error message of the RuntimeError raised by eikonal_single_step when the
stack rank is unsupported; the source interpolates the rank into the text. -/
def unsupportedMsg (d : ℕ) : String :=
  "Number of dimensions: " ++ toString d ++ " is not supported."

/-- Loop body of eikonal_single_step at one pixel: phi starts at one and is
multiplied, for each index group ind with factor f beyond the center, by
apply_update applied to the list of pairwise minima min (cc ind[i]) (cc ind[-(i+1)])
for i below len ind / 2; finally phi is raised to the power one half. -/
noncomputable def stepCore {P : Type} (d : ℕ) (cls : List (List ℕ × ℝ))
    (cc : ℕ → P → ℝ) (p : P) : ℝ :=
  Real.sqrt (cls.foldl (fun phi c =>
    phi * apply_update d c.2 ((List.range (c.1.length / 2)).map
      (fun i => min (cc (c.1.getD i 0) p) (cc (c.1.getD (c.1.length - (i + 1)) 0) p)))) 1)

/-- Embedding of eikonal_single_step from src/eikonal.py.  The source
dispatches on the stack tensor rank (5 for 2D, 6 for 3D, meaning spatial rank
d = 2 or 3), zips index_list[1:] with factors[1:], and folds stepCore. -/
noncomputable def eikonal_single_step {P : Type} (d : ℕ) (cc : ℕ → P → ℝ) :
    Except String (P → ℝ) :=
  if d = 2 then
    .ok (fun p => stepCore d ((index_list_2d.drop 1).zip (factors_2d.drop 1)) cc p)
  else if d = 3 then
    .ok (fun p => stepCore d ((index_list_3d.drop 1).zip (factors_3d.drop 1)) cc p)
  else
    .error (unsupportedMsg d)

/-- Affinity mask derived at the start of solve_eikonal: the neighbor stack of
the instance mask, entries differing from the center label zeroed in place,
then compared with gt 0.  Entry (k, p) is true iff the label at nbr k p equals
the label at p and is positive. -/
def affOf {P : Type} (nbr : ℕ → P → P) (instance_mask : P → ℤ) : ℕ → P → Bool :=
  fun k p => decide (instance_mask (nbr k p) = instance_mask p)
    && decide (0 < instance_mask (nbr k p))

/-- Semantic mask of solve_eikonal: instance_mask.gt(0). -/
def semOf {P : Type} (instance_mask : P → ℤ) : P → Bool :=
  fun p => decide (0 < instance_mask p)

/-- Mean of the squared elementwise difference of two fields, the convergence
error (T - T0).square().mean() of solve_eikonal. -/
noncomputable def mse {P : Type} [Fintype P] (T T0 : P → ℝ) : ℝ :=
  (∑ p, (T p - T0 p) ^ 2) / (Fintype.card P : ℝ)

/-- Loop guard comparison of solve_eikonal.  The Python local error starts at
float infinity, modelled by none, which exceeds every real tolerance; after
the first pass it holds the real mse value. -/
def errGt : Option ℝ → ℝ → Prop
  | none, _ => True
  | some e, eps => eps < e

noncomputable instance (err : Option ℝ) (eps : ℝ) : Decidable (errGt err eps) :=
  match err with
  | none => isTrue trivial
  | some e => inferInstanceAs (Decidable (eps < e))

/-- One pass of the while loop of solve_eikonal at iteration index t: sample
the neighbors of T, zero non-affine entries, run eikonal_single_step, zero
the background in place via the semantic mask, compute the convergence error
against T0, and on iteration 0 only replace T by the affinity-masked neighbor
mean over the full stack axis of size 3 ^ d.  Returns the new T and the error. -/
noncomputable def iterT {P : Type} [Fintype P] (d : ℕ) (nbr : ℕ → P → P)
    (aff : ℕ → P → Bool) (sem : P → Bool) (t : ℕ) (T T0 : P → ℝ) :
    Except String ((P → ℝ) × ℝ) :=
  match eikonal_single_step d
      (fun k p => binary_convolution nbr T k p * (if aff k p then 1 else 0)) with
  | .error e => .error e
  | .ok T1 =>
    let T2 : P → ℝ := fun p => T1 p * (if sem p then 1 else 0)
    let err : ℝ := mse T2 T0
    let T3 : P → ℝ :=
      if t < 1 then
        fun p => (∑ k ∈ Finset.range (3 ^ d),
          binary_convolution nbr T2 k p * (if aff k p then 1 else 0)) / ((3 ^ d : ℕ) : ℝ)
      else T2
    .ok (T3, err)

/-- The while loop of solve_eikonal, with the remaining iteration budget
min_steps - t as structural fuel: the loop runs while the error exceeds eps
and t is below min_steps, each pass writing the new field into both T and
(via T0.copy_) T0.  Returns the final field together with the final t. -/
noncomputable def solveGo {P : Type} [Fintype P] (d : ℕ) (nbr : ℕ → P → P)
    (aff : ℕ → P → Bool) (sem : P → Bool) (eps : ℝ) :
    ℕ → ℕ → (P → ℝ) → (P → ℝ) → Option ℝ → Except String ((P → ℝ) × ℕ)
  | 0, t, T, _, _ => .ok (T, t)
  | fuel + 1, t, T, T0, err =>
    if errGt err eps then
      match iterT d nbr aff sem t T T0 with
      | .error e => .error e
      | .ok (T3, err2) => solveGo d nbr aff sem eps fuel (t + 1) T3 T3 (some err2)
    else .ok (T, t)

/-- Embedding of solve_eikonal from src/eikonal.py: derive the affinity and
semantic masks from the instance mask, initialize T and T0 to all ones, and
run the fixed-point loop; the returned pair carries the solution field and
the number of completed loop passes. -/
noncomputable def solve_eikonal {P : Type} [Fintype P] (d : ℕ) (nbr : ℕ → P → P)
    (instance_mask : P → ℤ) (eps : ℝ) (min_steps : ℕ) :
    Except String ((P → ℝ) × ℕ) :=
  solveGo d nbr (affOf nbr instance_mask) (semOf instance_mask) eps
    min_steps 0 (fun _ => 1) (fun _ => 1) none

/-- Value of an Except with a default for the error case, used to state
properties of successful runs without exhibiting the full result term. -/
def okD {ε α : Type} (e : Except ε α) (dflt : α) : α :=
  match e with
  | .ok a => a
  | .error _ => dflt

/-- Lattice-direction table built by the index loops of gradient_from_eikonal:
component j of entry k.  In 2D the loops run j then i over (-1, 0, 1) with i
fastest, so entry k holds (k mod 3 - 1, k div 3 - 1); in 3D the outermost loop
runs the third component over (1, 0, -1) descending, giving third component
1 - k div 9. -/
def vecDir (d : ℕ) (k j : ℕ) : ℤ :=
  if d = 2 then
    (if j = 0 then ((k % 3 : ℕ) : ℤ) - 1 else ((k / 3 : ℕ) : ℤ) - 1)
  else if j = 0 then ((k % 3 : ℕ) : ℤ) - 1
  else if j = 1 then ((k % 9 / 3 : ℕ) : ℤ) - 1
  else 1 - ((k / 9 : ℕ) : ℤ)

/-- Raw vector magnitude of gradient_from_eikonal before the sqrt: the L1
norm vector_direction.abs().sum(dim=1) cast to float. -/
noncomputable def vecMagRaw (d k : ℕ) : ℝ :=
  ((∑ j ∈ Finset.range d, |vecDir d k j| : ℤ) : ℝ)

/-- Torch broadcasting test for one axis pair: two sizes are compatible for an
elementwise operation iff they are equal or one of them is one. -/
def broadcastOK (m n : ℕ) : Bool :=
  decide (m = n) || decide (m = 1) || decide (n = 1)

/-- Error message of the RuntimeError raised by gradient_from_eikonal for an
unsupported spatial rank; the source interpolates the rank and shape. -/
def gradUnsupportedMsg (d : ℕ) : String :=
  "Spatial Dimension of " ++ toString d ++ " is not supported"

/-- Error message standing for the torch broadcast failure raised when an
elementwise multiply meets incompatible axis sizes. -/
def broadcastErrMsg : String :=
  "size mismatch between stacked difference axis and direction axis"

/-- Embedding of gradient_from_eikonal from src/eikonal.py.  After the rank
check, the source samples the neighbors of the field, subtracts the center in
place, unsqueezes a new axis after the stack axis and concatenates two copies
of the differences along it, so that axis has size exactly 2; it then
multiplies elementwise with the direction table whose corresponding axis has
size d, which torch only accepts when the sizes broadcast.  Magnitude-zero
entries have their magnitude forced to infinity before the division, so their
contribution is exactly zero; the final flip reverses the size-2 axis. -/
noncomputable def gradient_from_eikonal {P : Type} (d : ℕ) (nbr : ℕ → P → P)
    (eikonal : P → ℝ) : Except String (ℕ → P → ℝ) :=
  if d < 2 ∨ 3 < d then .error (gradUnsupportedMsg d)
  else if broadcastOK 2 d then
    .ok (fun j p => ∑ k ∈ Finset.range (3 ^ d),
      if vecMagRaw d k = 0 then 0
      else (binary_convolution nbr eikonal k p - eikonal p) * ((vecDir d k (1 - j) : ℤ) : ℝ) /
        (2 * Real.sqrt (vecMagRaw d k)) ^ 2)
  else .error broadcastErrMsg

/-- Reference Single-Step Solver written from the words of the spec: start
from an accumulator equal to one, go through the direction classes in order
of increasing step length (1 then sqrt 2 in 2D), take the elementwise minimum
of each axis-aligned antipodal index pair of the class (pairs 1-7 and 3-5 for
step 1; pairs 0-8 and 2-6 for step sqrt 2; center index 4), run the Pair
Reducer on the stacked pair minima with that step length, multiply the
accumulator by the result, and finally take the square root. -/
noncomputable def single_step_spec_2d {P : Type} (cc : ℕ → P → ℝ) (p : P) : ℝ :=
  Real.sqrt (1
    * apply_update 2 1 [min (cc 1 p) (cc 7 p), min (cc 3 p) (cc 5 p)]
    * apply_update 2 (Real.sqrt 2) [min (cc 0 p) (cc 8 p), min (cc 2 p) (cc 6 p)])

/-- Reference Single-Step Solver for 3D written from the words of the spec:
classes of step length 1, sqrt 2 and sqrt 3 (center index 13), each class
listed as its axis-aligned antipodal index pairs, a pair being an index m of
the class together with its antipode 26 - m. -/
noncomputable def single_step_spec_3d {P : Type} (cc : ℕ → P → ℝ) (p : P) : ℝ :=
  Real.sqrt (1
    * apply_update 3 1
      [min (cc 4 p) (cc 22 p), min (cc 10 p) (cc 16 p), min (cc 12 p) (cc 14 p)]
    * apply_update 3 (Real.sqrt 2)
      [min (cc 1 p) (cc 25 p), min (cc 3 p) (cc 23 p), min (cc 5 p) (cc 21 p),
       min (cc 7 p) (cc 19 p), min (cc 9 p) (cc 17 p), min (cc 11 p) (cc 15 p)]
    * apply_update 3 (Real.sqrt 3)
      [min (cc 0 p) (cc 26 p), min (cc 2 p) (cc 24 p), min (cc 6 p) (cc 20 p),
       min (cc 8 p) (cc 18 p)])

/-- First-iteration smoothing as claim C2 words it: the sum of the
affinity-valid neighbor-sampled values divided by the number of valid
directions at each pixel (not by the full stack size). -/
noncomputable def specSmooth {P : Type} (d : ℕ) (nbr : ℕ → P → P)
    (aff : ℕ → P → Bool) (T : P → ℝ) : P → ℝ :=
  fun p => (∑ k ∈ Finset.range (3 ^ d),
      binary_convolution nbr T k p * (if aff k p then 1 else 0)) /
    (∑ k ∈ Finset.range (3 ^ d), (if aff k p then (1 : ℝ) else 0))

/-- Neighbor map of the 1 x 1 grid (any spatial rank): with border
replication every neighbor of the single pixel is the pixel itself. -/
def nbrU : ℕ → Unit → Unit := fun _ _ => ()

/-- All-zero instance mask on the 1 x 1 grid. -/
def mask0U : Unit → ℤ := fun _ => 0

/-- All-one instance mask on the 1 x 1 grid. -/
def mask1U : Unit → ℤ := fun _ => 1

/-- Neighbor map of a 2D grid with spatial shape 2 x 1: the pixel is its x
coordinate, the offset along x is k mod 3 - 1, and border replication clamps
x + dx to the grid, so dx = -1 lands on pixel 0, dx = 0 stays, dx = 1 lands
on pixel 1; the y offset is always clamped back to the single row. -/
def nbr21 : ℕ → Fin 2 → Fin 2 :=
  fun k x => if k % 3 = 0 then 0 else if k % 3 = 1 then x else 1

/-- Instance mask on the 2 x 1 grid with label 1 at pixel 0 and background at
pixel 1. -/
def mask21 : Fin 2 → ℤ := fun x => if x = 0 then 1 else 0

/-- Tensor value stored at one heap address: a float or integer field, a
neighbor stack of either dtype, boolean masks, the direction or magnitude
lookup tables of the gradient, or the two-copy concatenated difference
tensor. -/
inductive Val (P : Type) where
  | rf : (P → ℝ) → Val P
  | zf : (P → ℤ) → Val P
  | rs : (ℕ → P → ℝ) → Val P
  | zs : (ℕ → P → ℤ) → Val P
  | bs : (ℕ → P → Bool) → Val P
  | bf : (P → Bool) → Val P
  | zt : (ℕ → ℕ → ℤ) → Val P
  | rt : (ℕ → ℝ) → Val P
  | r2 : (ℕ → ℕ → P → ℝ) → Val P

/-- Addressed heap of tensors used to state the frame properties of the two
entry points: every tensor-producing torch operation allocates at the next
fresh address, and every in-place operation writes to an existing address. -/
structure Mem (P : Type) where
  next : ℕ
  store : ℕ → Val P

/-- A freshly allocated tensor: placed at the next address. -/
def Mem.alloc {P : Type} (m : Mem P) (v : Val P) : ℕ × Mem P :=
  (m.next, ⟨m.next + 1, fun a => if a = m.next then v else m.store a⟩)

/-- An in-place update of the tensor at an existing address. -/
def Mem.write {P : Type} (m : Mem P) (b : ℕ) (v : Val P) : Mem P :=
  ⟨m.next, fun a => if a = b then v else m.store a⟩

/-- Read a float field from the heap. -/
def Mem.readRF {P : Type} (m : Mem P) (a : ℕ) : P → ℝ :=
  match m.store a with
  | .rf g => g
  | _ => fun _ => 0

/-- Read an integer field from the heap. -/
def Mem.readZF {P : Type} (m : Mem P) (a : ℕ) : P → ℤ :=
  match m.store a with
  | .zf g => g
  | _ => fun _ => 0

/-- Read an integer neighbor stack from the heap. -/
def Mem.readZS {P : Type} (m : Mem P) (a : ℕ) : ℕ → P → ℤ :=
  match m.store a with
  | .zs g => g
  | _ => fun _ _ => 0

/-- Read a float neighbor stack from the heap. -/
def Mem.readRS {P : Type} (m : Mem P) (a : ℕ) : ℕ → P → ℝ :=
  match m.store a with
  | .rs g => g
  | _ => fun _ _ => 0

/-- Read a boolean neighbor stack from the heap. -/
def Mem.readBS {P : Type} (m : Mem P) (a : ℕ) : ℕ → P → Bool :=
  match m.store a with
  | .bs g => g
  | _ => fun _ _ => false

/-- Read a boolean field from the heap. -/
def Mem.readBF {P : Type} (m : Mem P) (a : ℕ) : P → Bool :=
  match m.store a with
  | .bf g => g
  | _ => fun _ => false

/-- Heaps reachable from m by allocations and by in-place writes that only
touch addresses at or above n; used to prove that the entry points never
write below the addresses that existed when they were called. -/
inductive Reach (n : ℕ) {P : Type} : Mem P → Mem P → Prop where
  | refl (m : Mem P) : Reach n m m
  | alloc (m m' : Mem P) (v : Val P) : Reach n m m' → Reach n m (m'.alloc v).2
  | write (m m' : Mem P) (b : ℕ) (v : Val P) :
      Reach n m m' → n ≤ b → Reach n m (m'.write b v)

/-- One heap-level pass of the solve_eikonal loop, tracking which torch
operations allocate and which write in place: the neighbor stack and its
affinity-masked product are fresh, eikonal_single_step returns a fresh field,
the semantic masking T.mul_ writes that fresh field in place, the
first-iteration smoothing allocates a fresh field, and T0.copy_ writes the
loop-owned buffer at T0A in place.  Returns the heap, the address holding the
new T, and the convergence error. -/
noncomputable def solveMemStep {P : Type} [Fintype P] (d : ℕ) (nbr : ℕ → P → P)
    (affA semA T0A t TA : ℕ) (m : Mem P) : Except String (Mem P × ℕ × ℝ) :=
  let alB := m.alloc (.rs (fun k p => m.readRF TA (nbr k p)))
  let alS := alB.2.alloc (.rs (fun k p =>
    alB.2.readRS alB.1 k p * (if alB.2.readBS affA k p then 1 else 0)))
  match eikonal_single_step d (alS.2.readRS alS.1) with
  | .error e => .error e
  | .ok T1 =>
    let alT := alS.2.alloc (.rf T1)
    let m5 := alT.2.write alT.1
      (.rf (fun p => alT.2.readRF alT.1 p * (if alT.2.readBF semA p then 1 else 0)))
    let err2 := mse (m5.readRF alT.1) (m5.readRF T0A)
    if t < 1 then
      let alM := m5.alloc (.rf (fun p => (∑ k ∈ Finset.range (3 ^ d),
        m5.readRF alT.1 (nbr k p) * (if m5.readBS affA k p then 1 else 0)) /
          ((3 ^ d : ℕ) : ℝ)))
      let m7 := alM.2.write T0A (.rf (alM.2.readRF alM.1))
      .ok (m7, alM.1, err2)
    else
      let m7 := m5.write T0A (.rf (m5.readRF alT.1))
      .ok (m7, alT.1, err2)

/-- Heap-level while loop of solve_eikonal: run solveMemStep while the error
exceeds the tolerance and iterations remain. -/
noncomputable def solveMemGo {P : Type} [Fintype P] (d : ℕ) (nbr : ℕ → P → P)
    (eps : ℝ) (affA semA T0A : ℕ) :
    ℕ → ℕ → ℕ → Option ℝ → Mem P → Except String (Mem P × ℕ)
  | 0, _, TA, _, m => .ok (m, TA)
  | fuel + 1, t, TA, err, m =>
    if errGt err eps then
      match solveMemStep d nbr affA semA T0A t TA m with
      | .error e => .error e
      | .ok (m7, TA2, err2) =>
        solveMemGo d nbr eps affA semA T0A fuel (t + 1) TA2 (some err2) m7
    else .ok (m, TA)

/-- Heap-level initialization of solve_eikonal: the sampled label stack is
fresh, the masked assignment writes it in place, the two gt comparisons and
the two all-one fields are fresh.  Returns the heap and the addresses of the
affinity mask, the semantic mask, T and T0. -/
noncomputable def solveMemInit {P : Type} (nbr : ℕ → P → P) (maskA : ℕ)
    (m0 : Mem P) : Mem P × ℕ × ℕ × ℕ × ℕ :=
  let al1 := m0.alloc (.zs (fun k p => m0.readZF maskA (nbr k p)))
  let m2 := al1.2.write al1.1 (.zs (fun k p =>
    if al1.2.readZS al1.1 k p = m0.readZF maskA p then al1.2.readZS al1.1 k p else 0))
  let al3 := m2.alloc (.bs (fun k p => decide (0 < m2.readZS al1.1 k p)))
  let al4 := al3.2.alloc (.bf (fun p => decide (0 < m0.readZF maskA p)))
  let al5 := al4.2.alloc (.rf (fun _ => 1))
  let al6 := al5.2.alloc (.rf (fun _ => 1))
  (al6.2, al3.1, al4.1, al5.1, al6.1)

/-- Heap-level solve_eikonal: initialize the masks and buffers on the heap,
then run the loop.  The instance mask at maskA is only ever read. -/
noncomputable def solve_eikonal_mem {P : Type} [Fintype P] (d : ℕ)
    (nbr : ℕ → P → P) (maskA : ℕ) (eps : ℝ) (min_steps : ℕ) (m0 : Mem P) :
    Except String (Mem P × ℕ) :=
  let ini := solveMemInit nbr maskA m0
  solveMemGo d nbr eps ini.2.1 ini.2.2.1 ini.2.2.2.2 min_steps 0 ini.2.2.2.1 none ini.1

/-- Heap-level gradient_from_eikonal: the zero direction table is fresh and
the index loops write it in place, the magnitude table is fresh and written
in place twice (sqrt on nonzero entries, then infinity at zero entries,
modelled by the zero contribution in the final sum), the sampled neighbor
stack is fresh and sub_ writes it in place, the concatenation is fresh, and
the result is fresh.  The input field at eikA is only ever read. -/
noncomputable def gradient_from_eikonal_mem {P : Type} (d : ℕ)
    (nbr : ℕ → P → P) (eikA : ℕ) (m0 : Mem P) : Except String (Mem P × ℕ) :=
  if d < 2 ∨ 3 < d then .error (gradUnsupportedMsg d)
  else
    let alD := m0.alloc (.zt (fun _ _ => 0))
    let m2 := alD.2.write alD.1 (.zt (vecDir d))
    let alM := m2.alloc (.rt (fun k => vecMagRaw d k))
    let m4 := alM.2.write alM.1
      (.rt (fun k => if vecMagRaw d k = 0 then 0 else Real.sqrt (vecMagRaw d k)))
    let alA := m4.alloc (.rs (fun k p => m4.readRF eikA (nbr k p)))
    let m6 := alA.2.write alA.1 (.rs (fun k p =>
      alA.2.readRS alA.1 k p - m4.readRF eikA p))
    let alC := m6.alloc (.r2 (fun k _ p => m6.readRS alA.1 k p))
    if broadcastOK 2 d then
      let alG := alC.2.alloc (.rs (fun j p => ∑ k ∈ Finset.range (3 ^ d),
        if vecMagRaw d k = 0 then 0
        else alC.2.readRS alA.1 k p * ((vecDir d k (1 - j) : ℤ) : ℝ) /
          (2 * Real.sqrt (vecMagRaw d k)) ^ 2))
      .ok (alG.2, alG.1)
    else .error broadcastErrMsg

lemma le_getLast_of_sorted :
    ∀ (l : List ℝ), l.Sorted (· ≤ ·) → ∀ v ∈ l, ∀ h : l ≠ [], v ≤ l.getLast h := by
  intro l
  induction l with
  | nil => intro _ v hv _; cases hv
  | cons a t ih =>
    intro hs v hv hne
    rcases List.mem_cons.mp hv with rfl | hv
    · cases t with
      | nil => simp [List.getLast]
      | cons b t2 =>
        have h1 : v ≤ b := (List.sorted_cons.mp hs).1 b (List.mem_cons_self b t2)
        have h2 : b ≤ (b :: t2).getLast (by simp) :=
          ih (List.sorted_cons.mp hs).2 b (List.mem_cons_self b t2) (by simp)
        rw [List.getLast_cons (by simp : (b :: t2) ≠ [])]
        exact le_trans h1 h2
    · have hne2 : t ≠ [] := List.ne_nil_of_mem hv
      have := ih (List.sorted_cons.mp hs).2 v hv hne2
      rw [List.getLast_cons hne2]
      exact this

lemma upwind_mask_true (f : ℝ) (l : List ℝ) (hf : 0 < f) :
    ∀ v ∈ List.insertionSort (· ≤ ·) l,
      v - (List.insertionSort (· ≤ ·) l).getLast?.getD 0 < f := by
  rcases eq_or_ne l [] with rfl | hne
  · intro v hv; simp [List.insertionSort] at hv
  · have hperm : List.Perm (List.insertionSort (· ≤ ·) l) l := List.perm_insertionSort _ l
    have hsne : List.insertionSort (· ≤ ·) l ≠ [] := by
      intro h0
      exact hne (List.Perm.eq_nil ((h0 ▸ hperm).symm))
    have hsort : (List.insertionSort (· ≤ ·) l).Sorted (· ≤ ·) :=
      List.sorted_insertionSort _ l
    intro v hv
    rw [List.getLast?_eq_getLast_of_ne_nil hsne, Option.getD_some]
    have hle : v ≤ (List.insertionSort (· ≤ ·) l).getLast hsne :=
      le_getLast_of_sorted _ hsort v hv hsne
    exact lt_of_le_of_lt (sub_nonpos.mpr hle) hf

lemma apply_update_eq (d : ℕ) (f : ℝ) (l : List ℝ) (hf : 0 < f) :
    apply_update d f l =
      (1 / (d : ℝ)) * (l.sum +
        Real.sqrt (max (l.sum ^ 2 - (d : ℝ) * ((l.map (fun v => v ^ 2)).sum - f ^ 2)) 0)) := by
  rcases eq_or_ne l [] with rfl | hne
  · simp [apply_update, List.insertionSort]
  · have hperm : List.Perm (List.insertionSort (· ≤ ·) l) l := List.perm_insertionSort _ l
    have hmask := upwind_mask_true f l hf
    have hmap : (List.insertionSort (· ≤ ·) l).map
          (fun v => v * (if v - (List.insertionSort (· ≤ ·) l).getLast?.getD 0 < f then 1 else 0))
        = List.insertionSort (· ≤ ·) l := by
      have h1 : (List.insertionSort (· ≤ ·) l).map
            (fun v => v * (if v - (List.insertionSort (· ≤ ·) l).getLast?.getD 0 < f then 1 else 0))
          = (List.insertionSort (· ≤ ·) l).map (fun v => v) := by
        apply List.map_congr_left
        intro v hv
        rw [if_pos (hmask v hv), mul_one]
      rw [h1, List.map_id']
    simp only [apply_update]
    rw [hmap, hperm.sum_eq, (hperm.map (fun v => v ^ 2)).sum_eq]

lemma sqrt_four : Real.sqrt 4 = 2 := by
  rw [show (4 : ℝ) = 2 ^ 2 by norm_num, Real.sqrt_sq (by norm_num : (0 : ℝ) ≤ 2)]

lemma au_one_zero : apply_update 2 1 [(1 : ℝ), 0] = 1 := by
  rw [apply_update_eq 2 1 [(1 : ℝ), 0] one_pos]
  norm_num

lemma au_zero_zero_s2 : apply_update 2 (Real.sqrt 2) [(0 : ℝ), 0] = 1 := by
  rw [apply_update_eq 2 (Real.sqrt 2) [(0 : ℝ), 0] (Real.sqrt_pos.mpr (by norm_num))]
  have h2 : Real.sqrt 2 ^ 2 = 2 := Real.sq_sqrt (by norm_num)
  norm_num [h2]
  rw [sqrt_four]
  norm_num

lemma solveGo_zero {P : Type} [Fintype P] (d : ℕ) (nbr : ℕ → P → P) (aff : ℕ → P → Bool)
    (sem : P → Bool) (eps : ℝ) (t : ℕ) (T T0 : P → ℝ) (err : Option ℝ) :
    solveGo d nbr aff sem eps 0 t T T0 err = .ok (T, t) := rfl

lemma solveGo_succ {P : Type} [Fintype P] (d : ℕ) (nbr : ℕ → P → P) (aff : ℕ → P → Bool)
    (sem : P → Bool) (eps : ℝ) (fuel t : ℕ) (T T0 : P → ℝ) (err : Option ℝ) :
    solveGo d nbr aff sem eps (fuel + 1) t T T0 err =
      if errGt err eps then
        match iterT d nbr aff sem t T T0 with
        | .error e => .error e
        | .ok (T3, err2) => solveGo d nbr aff sem eps fuel (t + 1) T3 T3 (some err2)
      else .ok (T, t) := rfl

lemma solveGo_succ_enter {P : Type} [Fintype P] {d : ℕ} {nbr : ℕ → P → P}
    {aff : ℕ → P → Bool} {sem : P → Bool} {eps : ℝ} {fuel t : ℕ} {T T0 T3 : P → ℝ}
    {err : Option ℝ} {e2 : ℝ} (herr : errGt err eps)
    (hiter : iterT d nbr aff sem t T T0 = .ok (T3, e2)) :
    solveGo d nbr aff sem eps (fuel + 1) t T T0 err
      = solveGo d nbr aff sem eps fuel (t + 1) T3 T3 (some e2) := by
  rw [solveGo_succ, if_pos herr, hiter]

lemma solveGo_succ_exit {P : Type} [Fintype P] {d : ℕ} {nbr : ℕ → P → P}
    {aff : ℕ → P → Bool} {sem : P → Bool} {eps : ℝ} {fuel t : ℕ} {T T0 : P → ℝ}
    {err : Option ℝ} (herr : ¬ errGt err eps) :
    solveGo d nbr aff sem eps (fuel + 1) t T T0 err = .ok (T, t) := by
  rw [solveGo_succ, if_neg herr]

lemma iterU0_eval :
    iterT 2 nbrU (affOf nbrU mask0U) (semOf mask0U) 0 (fun _ => 1) (fun _ => 1)
      = .ok ((fun _ => 0), 1) := by
  simp only [iterT, eikonal_single_step, if_pos]
  norm_num
  constructor
  · funext _x
    simp [affOf, mask0U, semOf, binary_convolution]
  · simp [mse, semOf, mask0U]

lemma iterU1_eval :
    iterT 2 nbrU (affOf nbrU mask0U) (semOf mask0U) 1 (fun _ => 0) (fun _ => 0)
      = .ok ((fun _ => 0), 0) := by
  simp only [iterT, eikonal_single_step, if_pos]
  norm_num
  constructor
  · funext _x
    simp [semOf, mask0U]
  · simp [mse, semOf, mask0U]

lemma stepCore21_at0 :
    stepCore 2 ((index_list_2d.drop 1).zip (factors_2d.drop 1))
      (fun k p => binary_convolution nbr21 (fun _ => 1) k p *
        (if affOf nbr21 mask21 k p then 1 else 0)) 0 = 1 := by
  simp only [stepCore, index_list_2d, factors_2d, List.drop, List.zip, List.zipWith,
    List.foldl, List.range, List.range.loop, List.map, List.getD, List.getLast?,
    List.get?]
  norm_num [binary_convolution, affOf, nbr21, mask21]
  rw [au_one_zero, au_zero_zero_s2]
  norm_num

lemma stepCore21_at0A :
    stepCore 2 (index_list_2d.tail.zip factors_2d.tail)
      (fun k p => if affOf nbr21 mask21 k p = true
        then binary_convolution nbr21 (fun _ => 1) k p else 0) 0 = 1 := by
  simp only [stepCore, index_list_2d, factors_2d, List.tail, List.zip, List.zipWith,
    List.foldl, List.range, List.range.loop, List.map, List.getD, List.get?]
  norm_num [binary_convolution, affOf, nbr21, mask21]
  rw [au_one_zero, au_zero_zero_s2]
  norm_num

lemma stepCore21_at0B :
    stepCore 2 (index_list_2d.tail.zip factors_2d.tail)
      (fun k p => if affOf nbr21 mask21 k p = true then (1 : ℝ) else 0) 0 = 1 := by
  simp only [stepCore, index_list_2d, factors_2d, List.tail, List.zip, List.zipWith,
    List.foldl, List.range, List.range.loop, List.map, List.getD, List.get?]
  norm_num [affOf, nbr21, mask21]
  rw [au_one_zero, au_zero_zero_s2]
  norm_num

lemma iter21_t0_eval :
    iterT 2 nbr21 (affOf nbr21 mask21) (semOf mask21) 0 (fun _ => 1) (fun _ => 1)
      = .ok ((fun x => if x = 0 then 2 / 3 else 0), 1 / 2) := by
  simp only [iterT, eikonal_single_step, if_pos]
  norm_num
  constructor
  · funext x
    fin_cases x
    · simp [Finset.sum_range_succ, binary_convolution, nbr21]
      norm_num +decide [stepCore21_at0B]
    · simp [Finset.sum_range_succ, binary_convolution, nbr21]
      norm_num +decide []
  · simp only [mse]
    rw [Fin.sum_univ_two]
    norm_num [semOf, mask21]
    rw [stepCore21_at0A]
    norm_num

lemma iterT_eq_error {P : Type} [Fintype P] {d : ℕ} {nbr : ℕ → P → P}
    {aff : ℕ → P → Bool} {sem : P → Bool} {t : ℕ} {T T0 : P → ℝ} {e : String}
    (hstep : eikonal_single_step d
      (fun k p => binary_convolution nbr T k p * (if aff k p then 1 else 0)) = .error e) :
    iterT d nbr aff sem t T T0 = .error e := by
  rw [iterT, hstep]

lemma iterT_eq_ok {P : Type} [Fintype P] {d : ℕ} {nbr : ℕ → P → P}
    {aff : ℕ → P → Bool} {sem : P → Bool} {t : ℕ} {T T0 : P → ℝ} {T1 : P → ℝ}
    (hstep : eikonal_single_step d
      (fun k p => binary_convolution nbr T k p * (if aff k p then 1 else 0)) = .ok T1) :
    iterT d nbr aff sem t T T0 = .ok
      ((if t < 1 then
          (fun p => (∑ k ∈ Finset.range (3 ^ d),
            binary_convolution nbr (fun q => T1 q * (if sem q then 1 else 0)) k p *
              (if aff k p then 1 else 0)) / ((3 ^ d : ℕ) : ℝ))
        else fun p => T1 p * (if sem p then 1 else 0)),
       mse (fun q => T1 q * (if sem q then 1 else 0)) T0) := by
  rw [iterT, hstep]

lemma aff_false_of_bg {P : Type} (nbr : ℕ → P → P) (mask : P → ℤ) (p : P)
    (hp : mask p ≤ 0) (k : ℕ) : affOf nbr mask k p = false := by
  rcases eq_or_ne (mask (nbr k p)) (mask p) with he | he
  · simp [affOf, he, not_lt.mpr hp]
  · simp [affOf, he]

lemma iterT_ok_bg {P : Type} [Fintype P] {d : ℕ} {nbr : ℕ → P → P} {mask : P → ℤ}
    {t : ℕ} {T T0 : P → ℝ} {pr : (P → ℝ) × ℝ}
    (h : iterT d nbr (affOf nbr mask) (semOf mask) t T T0 = .ok pr)
    {p : P} (hp : mask p ≤ 0) : pr.1 p = 0 := by
  cases hstep : eikonal_single_step d
      (fun k p => binary_convolution nbr T k p * (if affOf nbr mask k p then 1 else 0)) with
  | error e =>
    rw [iterT_eq_error hstep] at h
    exact Except.noConfusion h
  | ok T1 =>
    rw [iterT_eq_ok hstep, Except.ok.injEq] at h
    rw [← h]
    by_cases ht : t < 1
    · simp only [if_pos ht]
      simp [binary_convolution, aff_false_of_bg nbr mask p hp]
    · simp only [if_neg ht]
      simp [semOf, not_lt.mpr hp]



lemma iterT_ok_of_rank {P : Type} [Fintype P] (d : ℕ) (hd : d = 2 ∨ d = 3)
    (nbr : ℕ → P → P) (aff : ℕ → P → Bool) (sem : P → Bool) (t : ℕ) (T T0 : P → ℝ) :
    ∃ pr, iterT d nbr aff sem t T T0 = .ok pr := by
  rcases hd with rfl | rfl <;> exact ⟨_, rfl⟩

lemma solveGo_zero_mask {P : Type} [Fintype P] (d : ℕ) (hd : d = 2 ∨ d = 3)
    (nbr : ℕ → P → P) (mask : P → ℤ) (hmask : ∀ q, mask q = 0) (eps : ℝ) :
    ∀ fuel t (T T0 : P → ℝ) err, (∀ q, T q = 0) → ∀ p,
      (solveGo d nbr (affOf nbr mask) (semOf mask) eps fuel t T T0 err).map
        (fun r => r.1 p) = .ok 0 := by
  intro fuel
  induction fuel with
  | zero =>
    intro t T T0 err hT p
    simp [solveGo_zero, Except.map, hT]
  | succ n ih =>
    intro t T T0 err hT p
    by_cases herr : errGt err eps
    · obtain ⟨pr, hiter⟩ := iterT_ok_of_rank d hd nbr _ _ t T T0
      rw [solveGo_succ_enter herr hiter]
      exact ih (t + 1) pr.1 pr.1 (some pr.2)
        (fun q => iterT_ok_bg hiter (le_of_eq (hmask q))) p
    · rw [solveGo_succ_exit herr]
      simp [Except.map, hT]

/-- Claim C4 (amended): for spatial rank 2 or 3, an all-zero instance mask,
any real tolerance and a minimum step count of at least one, solve_eikonal
succeeds and the returned field is zero at every pixel. -/
theorem zero_mask_returns_zero_field {P : Type} [Fintype P] (d : ℕ)
    (hd : d = 2 ∨ d = 3) (nbr : ℕ → P → P) (mask : P → ℤ)
    (hmask : ∀ q, mask q = 0) (eps : ℝ) (ms : ℕ) (hms : 1 ≤ ms) (p : P) :
    (solve_eikonal d nbr mask eps ms).map (fun r => r.1 p) = .ok 0 := by
  obtain ⟨m, rfl⟩ : ∃ m, ms = m + 1 := ⟨ms - 1, by omega⟩
  rw [solve_eikonal]
  obtain ⟨pr, hiter⟩ := iterT_ok_of_rank d hd nbr _ _ 0 (fun _ => 1) (fun _ => 1)
  rw [solveGo_succ_enter (show errGt none eps from trivial) hiter]
  exact solveGo_zero_mask d hd nbr mask hmask eps m 1 pr.1 pr.1 (some pr.2)
    (fun q => iterT_ok_bg hiter (le_of_eq (hmask q))) p

/-- Witness for claim C4: concrete all-zero 2D mask on a one-pixel grid with
the default tolerance and one loop pass. -/
theorem zero_mask_returns_zero_field_witness :
    (solve_eikonal 2 nbrU mask0U (1 / 1000) 1).map (fun r => r.1 ()) = .ok 0 :=
  zero_mask_returns_zero_field 2 (Or.inl rfl) nbrU mask0U (fun _ => rfl) (1 / 1000) 1
    le_rfl ()

/-- Counterexample for claim C4 as stated: with min_steps equal to zero the
while loop of solve_eikonal never runs and the all-ones initial field is
returned, so the result of an all-zero mask is not the zero field. -/
theorem zero_mask_min_steps_zero_counterexample :
    (solve_eikonal 2 nbrU mask0U (1 / 1000) 0).map (fun r => (r.1 (), r.2)) = .ok (1, 0)
    ∧ (1 : ℝ) ≠ 0 := by
  refine ⟨?_, by norm_num⟩
  rw [solve_eikonal, solveGo_zero]
  rfl

/-- Claim C8 (amended): for a spatial rank other than 2 and 3 the
unsupported-dimension error surfaces from the first loop pass whenever
min_steps is at least one, so no field is returned. -/
theorem unsupported_rank_raises_when_loop_entered {P : Type} [Fintype P] (d : ℕ)
    (h2 : d ≠ 2) (h3 : d ≠ 3) (nbr : ℕ → P → P) (mask : P → ℤ) (eps : ℝ)
    (ms : ℕ) (hms : 1 ≤ ms) :
    solve_eikonal d nbr mask eps ms = .error (unsupportedMsg d) := by
  obtain ⟨m, rfl⟩ : ∃ m, ms = m + 1 := ⟨ms - 1, by omega⟩
  have hstep : eikonal_single_step d
      (fun k p => binary_convolution nbr (fun _ => (1 : ℝ)) k p *
        (if affOf nbr mask k p then 1 else 0)) = .error (unsupportedMsg d) := by
    simp [eikonal_single_step, h2, h3]
  rw [solve_eikonal, solveGo_succ, if_pos (show errGt none eps from trivial),
    iterT_eq_error hstep]

/-- Witness for claim C8: rank 4 with one loop pass raises the error. -/
theorem unsupported_rank_raises_when_loop_entered_witness :
    solve_eikonal 4 nbrU mask1U (1 / 1000) 1 = .error (unsupportedMsg 4) :=
  unsupported_rank_raises_when_loop_entered 4 (by norm_num) (by norm_num) nbrU mask1U
    (1 / 1000) 1 le_rfl

/-- Counterexample for claim C8 as stated: with min_steps equal to zero the
loop is never entered, the rank check inside eikonal_single_step never runs,
and a rank-1 mask yields a normal return instead of an error. -/
theorem unsupported_rank_no_error_counterexample :
    (solve_eikonal 1 nbrU mask1U (1 / 1000) 0).map (fun r => (r.1 (), r.2)) = .ok (1, 0) := by
  rw [solve_eikonal, solveGo_zero]
  rfl

/-- Claim C5: on a single-pair stack holding value v with step length f and
spatial rank d, the Pair Reducer returns
(v + sqrt (max (v ^ 2 - d * (v ^ 2 - f ^ 2)) 0)) / d, the discriminant being
clamped at zero before the square root; in particular the 2D instance with
f = 1 and v = 1 returns exactly 1. -/
theorem apply_update_single_pair :
    (∀ (d : ℕ) (f v : ℝ), 0 < f →
      apply_update d f [v] =
        (1 / (d : ℝ)) * (v + Real.sqrt (max (v ^ 2 - (d : ℝ) * (v ^ 2 - f ^ 2)) 0)))
    ∧ apply_update 2 1 [1] = 1 := by
  have hmain : ∀ (d : ℕ) (f v : ℝ), 0 < f →
      apply_update d f [v] =
        (1 / (d : ℝ)) * (v + Real.sqrt (max (v ^ 2 - (d : ℝ) * (v ^ 2 - f ^ 2)) 0)) := by
    intro d f v hf
    unfold apply_update
    simp only [List.insertionSort, List.orderedInsert, List.getLast?, Option.getD_some,
      List.getLast_singleton, List.map, sub_self, if_pos hf, mul_one, List.sum_cons,
      List.sum_nil, add_zero]
  refine ⟨hmain, ?_⟩
  rw [hmain 2 1 1 one_pos]
  norm_num

/-- Witness for claim C5: the reducer formula instantiated at rank 3, step
length 1 and value 5. -/
theorem apply_update_single_pair_witness :
    apply_update 3 1 [5] =
      (1 / ((3 : ℕ) : ℝ)) * (5 + Real.sqrt (max ((5 : ℝ) ^ 2 - ((3 : ℕ) : ℝ) * ((5 : ℝ) ^ 2 - 1 ^ 2)) 0)) :=
  apply_update_single_pair.1 3 1 5 one_pos

/-- Claim C9: for every pair stack and positive step length the upwind
selection mask of the Pair Reducer is identically true, so no value is
discarded and the output is the closed form in the sum and sum of squares of
all pair minima, independent of the sorting step. -/
theorem apply_update_upwind_mask_all_true (d : ℕ) (f : ℝ) (l : List ℝ) (hf : 0 < f) :
    (∀ v ∈ List.insertionSort (· ≤ ·) l,
        v - (List.insertionSort (· ≤ ·) l).getLast?.getD 0 < f)
    ∧ apply_update d f l =
      (1 / (d : ℝ)) * (l.sum +
        Real.sqrt (max (l.sum ^ 2 - (d : ℝ) * ((l.map (fun v => v ^ 2)).sum - f ^ 2)) 0)) :=
  ⟨upwind_mask_true f l hf, apply_update_eq d f l hf⟩

/-- Witness for claim C9: the sorting-free closed form at rank 2, step length
1 and the concrete stack holding 1 and 0. -/
theorem apply_update_upwind_mask_all_true_witness :
    apply_update 2 1 [(1 : ℝ), 0] =
      (1 / ((2 : ℕ) : ℝ)) * (([(1 : ℝ), 0]).sum +
        Real.sqrt (max (([(1 : ℝ), 0]).sum ^ 2 -
          ((2 : ℕ) : ℝ) * ((([(1 : ℝ), 0]).map (fun v => v ^ 2)).sum - 1 ^ 2)) 0)) :=
  (apply_update_upwind_mask_all_true 2 1 [(1 : ℝ), 0] one_pos).2

/-- Claim C6: after any single pass of the fixed-point loop, whether or not
it includes the iteration-zero smoothing, the produced field is exactly zero
at every pixel whose instance label is not positive. -/
theorem iterT_zero_outside_semantic_mask {P : Type} [Fintype P] (d : ℕ)
    (nbr : ℕ → P → P) (mask : P → ℤ) (t : ℕ) (T T0 : P → ℝ) (p : P)
    (hp : mask p ≤ 0) :
    okD ((iterT d nbr (affOf nbr mask) (semOf mask) t T T0).map (fun pr => pr.1 p)) 0
      = 0 := by
  cases h : iterT d nbr (affOf nbr mask) (semOf mask) t T T0 with
  | error e => simp [Except.map, okD]
  | ok pr =>
    simp only [Except.map, okD]
    exact iterT_ok_bg h hp

/-- Witness for claim C6: the background pixel of the concrete 2 x 1 grid
after one pass at iteration index 1. -/
theorem iterT_zero_outside_semantic_mask_witness :
    mask21 1 ≤ 0 ∧
    okD ((iterT 2 nbr21 (affOf nbr21 mask21) (semOf mask21) 1 (fun _ => 1)
      (fun _ => 1)).map (fun pr => pr.1 1)) 0 = 0 :=
  ⟨by decide,
    iterT_zero_outside_semantic_mask 2 nbr21 mask21 1 (fun _ => 1) (fun _ => 1) 1
      (by decide)⟩

/-- Claim C7: for every 2D and 3D neighbor stack, eikonal_single_step
succeeds and equals the reference single-step solver written from the spec,
which pairs antipodal indices per direction class ordered by increasing step
length, reduces each class with the Pair Reducer, multiplies the accumulator
starting from one, and takes the final square root. -/
theorem eikonal_single_step_matches_spec :
    (∀ (P : Type) (cc : ℕ → P → ℝ),
      eikonal_single_step 2 cc = .ok (fun p => single_step_spec_2d cc p))
    ∧ ∀ (P : Type) (cc : ℕ → P → ℝ),
      eikonal_single_step 3 cc = .ok (fun p => single_step_spec_3d cc p) :=
  ⟨fun _ _ => rfl, fun _ _ => rfl⟩

/-- Claim C3: gradient_from_eikonal succeeds on every 2D field, but on every
3D field the elementwise multiply of the concatenated difference tensor
(gradient axis of size exactly 2) with the direction table (axis of size 3)
cannot broadcast, so the call fails instead of returning a field of gradient
axis 3 as its docstring promises. -/
theorem gradient_rank3_broadcast_failure :
    (∀ (P : Type) (nbr : ℕ → P → P) (T : P → ℝ),
      ∃ G, gradient_from_eikonal 2 nbr T = .ok G)
    ∧ gradient_from_eikonal 3 nbrU (fun _ => 0) = .error broadcastErrMsg :=
  ⟨fun _ _ _ => ⟨_, rfl⟩, rfl⟩

end EikonalModel

namespace EikonalModel

lemma solveGo_one_enter {P : Type} [Fintype P] {d : ℕ} {nbr : ℕ → P → P}
    {aff : ℕ → P → Bool} {sem : P → Bool} {eps : ℝ} {t : ℕ} {T T0 T3 : P → ℝ}
    {err : Option ℝ} {e2 : ℝ} (herr : errGt err eps)
    (hiter : iterT d nbr aff sem t T T0 = .ok (T3, e2)) :
    solveGo d nbr aff sem eps 1 t T T0 err = .ok (T3, t + 1) := by
  have h := @solveGo_succ_enter P _ d nbr aff sem eps 0 t T T0 T3 err e2 herr hiter
  rw [solveGo_zero] at h
  exact h

lemma iter21_eval :
    iterT 2 nbr21 (affOf nbr21 mask21) (semOf mask21) 1 (fun _ => 1) (fun _ => 1)
      = .ok ((fun x => if x = 0 then 1 else 0), 1 / 2) := by
  simp only [iterT, eikonal_single_step, if_pos]
  norm_num
  constructor
  · funext x
    fin_cases x
    · simpa [semOf, mask21] using stepCore21_at0
    · simp [semOf, mask21]
  · simp only [mse]
    rw [Fin.sum_univ_two]
    norm_num [semOf, mask21]
    rw [stepCore21_at0A]
    norm_num

/-- Claim C1 (code bug): on an all-zero one-pixel 2D mask with the default
tolerance and min_steps 51, solve_eikonal returns after only two loop passes,
because the guard of the while loop stops as soon as the error is within
tolerance even though min_steps passes have not been performed; the parameter
docstring calls min_steps a minimum iteration count. -/
theorem solve_eikonal_stops_before_min_steps_on_tolerance :
    (solve_eikonal 2 nbrU mask0U (1 / 1000) 51).map (fun r => (r.1 (), r.2))
      = .ok (0, 2) := by
  rw [solve_eikonal, show (51 : ℕ) = 50 + 1 from rfl,
    solveGo_succ_enter (show errGt none (1 / 1000) from trivial) iterU0_eval,
    show (50 : ℕ) = 49 + 1 from rfl,
    solveGo_succ_enter (show errGt (some 1) (1 / 1000) by norm_num [errGt]) iterU1_eval,
    show (49 : ℕ) = 48 + 1 from rfl,
    solveGo_succ_exit (show ¬ errGt (some 0) (1 / 1000) by norm_num [errGt])]
  rfl

/-- Claim C2 (amended): one loop pass at iteration index 0 equals the pass at
index 1 followed by replacing the field with the affinity-masked neighbor sum
divided by the full stack size 3 ^ d, and all passes at index 1 or later are
identical, performing no smoothing. -/
theorem first_iteration_smoothing_mean_over_full_stack {P : Type} [Fintype P]
    (d : ℕ) (nbr : ℕ → P → P) (aff : ℕ → P → Bool) (sem : P → Bool)
    (T T0 : P → ℝ) :
    iterT d nbr aff sem 0 T T0
      = Except.map (fun pr => ((fun p => (∑ k ∈ Finset.range (3 ^ d),
          binary_convolution nbr pr.1 k p * (if aff k p then 1 else 0)) /
            ((3 ^ d : ℕ) : ℝ)), pr.2)) (iterT d nbr aff sem 1 T T0)
    ∧ ∀ t t', 1 ≤ t → 1 ≤ t' →
        iterT d nbr aff sem t T T0 = iterT d nbr aff sem t' T T0 := by
  constructor
  · cases hstep : eikonal_single_step d
        (fun k p => binary_convolution nbr T k p * (if aff k p then 1 else 0)) with
    | error e => rw [iterT_eq_error hstep, iterT_eq_error hstep]; rfl
    | ok T1 =>
      rw [iterT_eq_ok hstep, iterT_eq_ok hstep]
      norm_num [Except.map]
  · intro t t' ht ht'
    cases hstep : eikonal_single_step d
        (fun k p => binary_convolution nbr T k p * (if aff k p then 1 else 0)) with
    | error e => rw [iterT_eq_error hstep, iterT_eq_error hstep]
    | ok T1 =>
      rw [iterT_eq_ok hstep, iterT_eq_ok hstep,
        if_neg (by omega : ¬ t < 1), if_neg (by omega : ¬ t' < 1)]

/-- Witness for claim C2 amended: the smoothing relation and the equality of
the passes at indices 1 and 2 on the concrete one-pixel grid. -/
theorem first_iteration_smoothing_mean_over_full_stack_witness :
    (iterT 2 nbrU (affOf nbrU mask0U) (semOf mask0U) 0 (fun _ => 1) (fun _ => 1)
      = Except.map (fun pr => ((fun p => (∑ k ∈ Finset.range (3 ^ 2),
          binary_convolution nbrU pr.1 k p * (if affOf nbrU mask0U k p then 1 else 0)) /
            ((3 ^ 2 : ℕ) : ℝ)), pr.2))
          (iterT 2 nbrU (affOf nbrU mask0U) (semOf mask0U) 1 (fun _ => 1) (fun _ => 1)))
    ∧ iterT 2 nbrU (affOf nbrU mask0U) (semOf mask0U) 1 (fun _ => 1) (fun _ => 1)
      = iterT 2 nbrU (affOf nbrU mask0U) (semOf mask0U) 2 (fun _ => 1) (fun _ => 1) :=
  ⟨(first_iteration_smoothing_mean_over_full_stack 2 nbrU (affOf nbrU mask0U)
      (semOf mask0U) (fun _ => 1) (fun _ => 1)).1,
   (first_iteration_smoothing_mean_over_full_stack 2 nbrU (affOf nbrU mask0U)
      (semOf mask0U) (fun _ => 1) (fun _ => 1)).2 1 2 le_rfl (by norm_num)⟩

/-- Counterexample for claim C2 as stated: on the 2 x 1 grid with one labeled
pixel, the first pass yields the field with value 1 at the labeled pixel, the
code smoothing divides the affinity-masked neighbor sum 6 by the stack size 9
giving 2 / 3 as the returned value, while dividing by the number of valid
directions (6) as the claim states would give 1. -/
theorem first_iteration_smoothing_counterexample :
    (solve_eikonal 2 nbr21 mask21 (1 / 1000) 1).map (fun r => (r.1 0, r.2))
      = .ok (2 / 3, 1)
    ∧ Except.map (fun pr => specSmooth 2 nbr21 (affOf nbr21 mask21) pr.1 0)
        (iterT 2 nbr21 (affOf nbr21 mask21) (semOf mask21) 1 (fun _ => 1) (fun _ => 1))
      = .ok 1
    ∧ (2 / 3 : ℝ) ≠ 1 := by
  refine ⟨?_, ?_, by norm_num⟩
  · rw [solve_eikonal,
      solveGo_one_enter (show errGt none (1 / 1000) from trivial) iter21_t0_eval]
    simp [Except.map]
  · rw [iter21_eval]
    simp only [Except.map, specSmooth]
    simp [Finset.sum_range_succ, binary_convolution, nbr21]
    have hc : (Finset.filter (fun x => affOf nbr21 mask21 x (0 : Fin 2) = true)
        (Finset.range 9)).card = 6 := by decide
    rw [hc]
    norm_num +decide []

end EikonalModel

namespace EikonalModel

lemma Mem.alloc_fst {P : Type} (m : Mem P) (v : Val P) :
    (m.alloc v).1 = m.next := rfl

lemma Mem.alloc_snd_next {P : Type} (m : Mem P) (v : Val P) :
    (m.alloc v).2.next = m.next + 1 := rfl

lemma Mem.alloc_snd_store {P : Type} (m : Mem P) (v : Val P) (a : ℕ)
    (ha : a < m.next) : (m.alloc v).2.store a = m.store a := by
  show (if a = m.next then v else m.store a) = m.store a
  rw [if_neg (Nat.ne_of_lt ha)]

lemma Mem.write_store_ne {P : Type} (m : Mem P) (b : ℕ) (v : Val P) (a : ℕ)
    (hab : a ≠ b) : (m.write b v).store a = m.store a := by
  show (if a = b then v else m.store a) = m.store a
  rw [if_neg hab]

lemma Reach.next_le {n : ℕ} {P : Type} {m m' : Mem P} (h : Reach n m m') :
    m.next ≤ m'.next := by
  induction h with
  | refl => exact le_rfl
  | alloc m2 v _ ih => exact le_trans ih (Nat.le_succ _)
  | write m2 b v _ _ ih => exact ih

lemma Reach.store_eq {n : ℕ} {P : Type} {m m' : Mem P} (hn : n ≤ m.next)
    (h : Reach n m m') : ∀ a, a < n → m'.store a = m.store a := by
  induction h with
  | refl => intro a _; rfl
  | alloc m2 v hr ih =>
    intro a ha
    rw [Mem.alloc_snd_store m2 v a (lt_of_lt_of_le ha (le_trans hn hr.next_le)), ih a ha]
  | write m2 b v hr hb ih =>
    intro a ha
    rw [Mem.write_store_ne m2 b v a (Nat.ne_of_lt (lt_of_lt_of_le ha hb)), ih a ha]

lemma Reach.trans {n : ℕ} {P : Type} {m1 m2 m3 : Mem P}
    (h1 : Reach n m1 m2) (h2 : Reach n m2 m3) : Reach n m1 m3 := by
  induction h2 with
  | refl => exact h1
  | alloc mb v _ ih => exact Reach.alloc _ _ _ ih
  | write mb b v _ hb ih => exact Reach.write _ _ _ _ ih hb

lemma solveMemStep_frame {P : Type} [Fintype P] {d : ℕ} {nbr : ℕ → P → P}
    {affA semA T0A t TA : ℕ} {m : Mem P} {n : ℕ} (hT0 : n ≤ T0A)
    (hn : n ≤ m.next) {m7 : Mem P} {TA2 : ℕ} {err2 : ℝ}
    (h : solveMemStep d nbr affA semA T0A t TA m = .ok (m7, TA2, err2)) :
    Reach n m m7 := by
  simp only [solveMemStep] at h
  split at h
  · exact absurd h (by simp)
  · split at h
    · rw [Except.ok.injEq, Prod.mk.injEq, Prod.mk.injEq] at h
      obtain ⟨hm, -, -⟩ := h
      rw [← hm]
      refine Reach.write _ _ _ _ ?_ hT0
      refine Reach.alloc _ _ _ ?_
      refine Reach.write _ _ _ _ ?_ ?_
      · exact Reach.alloc _ _ _ (Reach.alloc _ _ _ (Reach.alloc _ _ _ (Reach.refl m)))
      · simp only [Mem.alloc_fst, Mem.alloc_snd_next]
        omega
    · rw [Except.ok.injEq, Prod.mk.injEq, Prod.mk.injEq] at h
      obtain ⟨hm, -, -⟩ := h
      rw [← hm]
      refine Reach.write _ _ _ _ ?_ hT0
      refine Reach.write _ _ _ _ ?_ ?_
      · exact Reach.alloc _ _ _ (Reach.alloc _ _ _ (Reach.alloc _ _ _ (Reach.refl m)))
      · simp only [Mem.alloc_fst, Mem.alloc_snd_next]
        omega

lemma solveMemGo_reach {P : Type} [Fintype P] (d : ℕ) (nbr : ℕ → P → P) (eps : ℝ)
    (affA semA T0A : ℕ) (n : ℕ) (hT0 : n ≤ T0A) :
    ∀ fuel t TA err (m : Mem P), n ≤ m.next →
      ∀ m' rA, solveMemGo d nbr eps affA semA T0A fuel t TA err m = .ok (m', rA) →
        Reach n m m' := by
  intro fuel
  induction fuel with
  | zero =>
    intro t TA err m hn m' rA h
    rw [show solveMemGo d nbr eps affA semA T0A 0 t TA err m = .ok (m, TA) from rfl,
      Except.ok.injEq, Prod.mk.injEq] at h
    obtain ⟨hm, -⟩ := h
    rw [← hm]
    exact Reach.refl m
  | succ fuel ih =>
    intro t TA err m hn m' rA h
    rw [show solveMemGo d nbr eps affA semA T0A (fuel + 1) t TA err m =
        (if errGt err eps then
          match solveMemStep d nbr affA semA T0A t TA m with
          | .error e => .error e
          | .ok (m7, TA2, err2) =>
            solveMemGo d nbr eps affA semA T0A fuel (t + 1) TA2 (some err2) m7
        else .ok (m, TA)) from rfl] at h
    split at h
    · split at h
      · exact absurd h (by simp)
      · rename_i m7 TA2 err2 hstep
        have hr1 : Reach n m m7 := solveMemStep_frame hT0 hn hstep
        have hr2 : Reach n m7 m' :=
          ih (t + 1) TA2 (some err2) m7 (le_trans hn hr1.next_le) m' rA h
        exact hr1.trans hr2
    · rw [Except.ok.injEq, Prod.mk.injEq] at h
      obtain ⟨hm, -⟩ := h
      rw [← hm]
      exact Reach.refl m

end EikonalModel

namespace EikonalModel

lemma Mem.write_next {P : Type} (m : Mem P) (b : ℕ) (v : Val P) :
    (m.write b v).next = m.next := rfl

lemma solveMemInit_next {P : Type} (nbr : ℕ → P → P) (maskA : ℕ) (m : Mem P) :
    (solveMemInit nbr maskA m).1.next = m.next + 5 := rfl

lemma solveMemInit_T0A {P : Type} (nbr : ℕ → P → P) (maskA : ℕ) (m : Mem P) :
    (solveMemInit nbr maskA m).2.2.2.2 = m.next + 4 := rfl

lemma solveMemInit_reach {P : Type} (nbr : ℕ → P → P) (maskA : ℕ) (m : Mem P)
    (n : ℕ) (hn : n ≤ m.next) : Reach n m (solveMemInit nbr maskA m).1 := by
  refine Reach.alloc _ _ _ ?_
  refine Reach.alloc _ _ _ ?_
  refine Reach.alloc _ _ _ ?_
  refine Reach.alloc _ _ _ ?_
  refine Reach.write _ _ _ _ (Reach.alloc _ _ _ (Reach.refl m)) ?_
  simp only [Mem.alloc_fst]
  omega

lemma gradient_mem_reach {P : Type} {d : ℕ} {nbr : ℕ → P → P} {eikA : ℕ}
    {m : Mem P} {n : ℕ} (hn : n ≤ m.next) {m' : Mem P} {rA : ℕ}
    (h : gradient_from_eikonal_mem d nbr eikA m = .ok (m', rA)) :
    Reach n m m' := by
  simp only [gradient_from_eikonal_mem] at h
  split at h
  · exact absurd h (by simp)
  · split at h
    · rw [Except.ok.injEq, Prod.mk.injEq] at h
      obtain ⟨hm, -⟩ := h
      rw [← hm]
      refine Reach.alloc _ _ _ ?_
      refine Reach.alloc _ _ _ ?_
      refine Reach.write _ _ _ _ ?_ ?_
      · refine Reach.alloc _ _ _ ?_
        refine Reach.write _ _ _ _ ?_ ?_
        · refine Reach.alloc _ _ _ ?_
          refine Reach.write _ _ _ _ (Reach.alloc _ _ _ (Reach.refl m)) ?_
          simp only [Mem.alloc_fst]
          omega
        · simp only [Mem.alloc_fst, Mem.alloc_snd_next, Mem.write_next]
          omega
      · simp only [Mem.alloc_fst, Mem.alloc_snd_next, Mem.write_next]
        omega
    · exact absurd h (by simp)

/-- Claim C10: neither public entry point mutates any heap address that
existed before the call; in particular the instance mask passed to
solve_eikonal and the distance field passed to gradient_from_eikonal are
unchanged on return, every in-place torch operation hitting only freshly
allocated tensors or the loop-owned T0 buffer. -/
theorem entry_points_do_not_mutate_inputs :
    (∀ (P : Type) [Fintype P] (d : ℕ) (nbr : ℕ → P → P) (maskA : ℕ) (eps : ℝ)
        (ms : ℕ) (m : Mem P) (a : ℕ), a < m.next →
      okD ((solve_eikonal_mem d nbr maskA eps ms m).map (fun pr => pr.1.store a))
        (m.store a) = m.store a)
    ∧ ∀ (P : Type) (d : ℕ) (nbr : ℕ → P → P) (eikA : ℕ) (m : Mem P) (a : ℕ),
        a < m.next →
      okD ((gradient_from_eikonal_mem d nbr eikA m).map (fun pr => pr.1.store a))
        (m.store a) = m.store a := by
  constructor
  · intro P _ d nbr maskA eps ms m a ha
    cases h : solve_eikonal_mem d nbr maskA eps ms m with
    | error e => simp [Except.map, okD]
    | ok pr =>
      simp only [Except.map, okD]
      rw [solve_eikonal_mem] at h
      have hr1 : Reach m.next m (solveMemInit nbr maskA m).1 :=
        solveMemInit_reach nbr maskA m m.next le_rfl
      have hr2 : Reach m.next (solveMemInit nbr maskA m).1 pr.1 := by
        refine solveMemGo_reach d nbr eps _ _ _ m.next ?_ ms 0 _ none _ ?_ pr.1 pr.2 h
        · rw [solveMemInit_T0A]
          omega
        · rw [solveMemInit_next]
          omega
      exact (hr1.trans hr2).store_eq le_rfl a ha
  · intro P d nbr eikA m a ha
    cases h : gradient_from_eikonal_mem d nbr eikA m with
    | error e => simp [Except.map, okD]
    | ok pr =>
      simp only [Except.map, okD]
      have hr : Reach m.next m pr.1 := gradient_mem_reach le_rfl h
      exact hr.store_eq le_rfl a ha

/-- Witness for claim C10: both entry points on a one-address heap holding a
mask field at address 0, which is below the allocation frontier. -/
theorem entry_points_do_not_mutate_inputs_witness :
    (0 < (Mem.mk 1 (fun _ => Val.zf (fun _ => 0)) : Mem Unit).next
      ∧ okD ((solve_eikonal_mem 2 nbrU 0 (1 / 1000) 1
          (Mem.mk 1 (fun _ => Val.zf (fun _ => 0)) : Mem Unit)).map
            (fun pr => pr.1.store 0))
          ((Mem.mk 1 (fun _ => Val.zf (fun _ => 0)) : Mem Unit).store 0)
        = (Mem.mk 1 (fun _ => Val.zf (fun _ => 0)) : Mem Unit).store 0)
    ∧ okD ((gradient_from_eikonal_mem 2 nbrU 0
          (Mem.mk 1 (fun _ => Val.zf (fun _ => 0)) : Mem Unit)).map
            (fun pr => pr.1.store 0))
          ((Mem.mk 1 (fun _ => Val.zf (fun _ => 0)) : Mem Unit).store 0)
        = (Mem.mk 1 (fun _ => Val.zf (fun _ => 0)) : Mem Unit).store 0 :=
  ⟨⟨Nat.one_pos,
    entry_points_do_not_mutate_inputs.1 Unit 2 nbrU 0 (1 / 1000) 1
      (Mem.mk 1 (fun _ => Val.zf (fun _ => 0))) 0 Nat.one_pos⟩,
   entry_points_do_not_mutate_inputs.2 Unit 2 nbrU 0
      (Mem.mk 1 (fun _ => Val.zf (fun _ => 0))) 0 Nat.one_pos⟩

end EikonalModel
